import Mathlib

/-!
Verification of the labelvol merge/split mutation engine
(`datatype/googlevoxels/googlevoxels.go`, `labelvol` section).

The file shallowly embeds the data model and the three central routines
(`diffBlock`, `MergeLabels`, `SplitLabels`).  Collaborator code that is not
part of the source file (the `dvid` RLE helpers, the storage layer, the
event bus) is modelled from the spec, with each such definition marked
`Modelled from the spec:` in its doc comment.  Stateful Go code is embedded
as pure functions threading explicit state; the `io` effects of the
orchestrators are captured as an environment (`Env`) that decides the
outcome of every external call, together with a trace of observable events
(`Ev`).  Go runtime panics (nil-pointer dereference, index out of range)
are modelled as a distinct `crash` outcome, separate from returned errors.
-/

/-- Modelled from the spec: an RLE run is a maximal contiguous span along
the X axis at a fixed (Y,Z), represented as (start coordinate, length)
(`dvid.RLE`, which is not part of the source file).  Fields are listed in
(Z,Y,X) order to match the Z-major ordering of the data model. -/
structure RLE where
  z : Int
  y : Int
  x : Int
  len : Nat
deriving DecidableEq, Repr

/-- The Go zero value of `dvid.RLE` (produced by `make(dvid.RLEs, n)`). -/
def RLE.zero : RLE := ⟨0, 0, 0, 0⟩

/-- Modelled from the spec: ascending order on start coordinates used by
`sort.Sort` on `dvid.RLEs`; Z-major, then Y, then X, matching the
key-ordering invariant of the data model. -/
def rleLE (a b : RLE) : Bool :=
  decide (a.z < b.z) ||
    (decide (a.z = b.z) &&
      (decide (a.y < b.y) || (decide (a.y = b.y) && decide (a.x ≤ b.x))))

/-- Insert into a list sorted by `le` (helper for the sorting model). -/
def insSorted (le : α → α → Bool) (a : α) : List α → List α
  | [] => [a]
  | b :: bs => if le a b then a :: b :: bs else b :: insSorted le a bs

/-- Insertion sort by `le` (model of `sort.Sort`). -/
def insSort (le : α → α → Bool) : List α → List α
  | [] => []
  | a :: as => insSorted le a (insSort le as)

/-- Modelled from the spec: `excise(orig, cut)` returns the list of 0–2
fragments of `orig` remaining after removing the portion overlapping `cut`,
and a sentinel `none` ("no intersection") when the runs do not overlap,
distinguished from `some []` (intersection with zero remaining fragments).
Two runs overlap when they lie on the same (Y,Z) row and their X intervals
intersect.  (`dvid.RLE.Excise` is not part of the source file.) -/
def RLE.Excise (orig cut : RLE) : Option (List RLE) :=
  if orig.z = cut.z ∧ orig.y = cut.y ∧
      cut.x < orig.x + orig.len ∧ orig.x < cut.x + cut.len then
    some ((if orig.x < cut.x then
            [⟨orig.z, orig.y, orig.x, (cut.x - orig.x).toNat⟩] else []) ++
          (if cut.x + cut.len < orig.x + orig.len then
            [⟨orig.z, orig.y, cut.x + cut.len,
              (orig.x + orig.len - (cut.x + cut.len)).toNat⟩] else []))
  else none

/-- Modelled from the spec: `numVoxels` is the sum of run lengths. -/
def numVoxels (rs : List RLE) : Nat := (rs.map RLE.len).sum

/-- Outcome of `diffBlock`: a normal return `(modified, dup)`, the
"split is not contained within single label" error, or a Go runtime panic
(nil `*list.Element` dereference). -/
inductive DiffOut where
  | ok (modified : List RLE) (dup : Bool)
  | fail
  | nilCrash
deriving DecidableEq, Repr

/-- The inner `for i := si; i < len(srles); i++` loop of `diffBlock`:
try to excise each remaining split run from the current original element,
returning the fragments of the first split run that intersects it
(`badsplit` stays `true` when none does). -/
def findExciseAux (o : RLE) : List RLE → Option (List RLE)
  | [] => none
  | s :: ss =>
    match o.Excise s with
    | some frags => some frags
    | none => findExciseAux o ss

/-- The epilogue of `diffBlock`: an empty remaining list means the block is
a full duplicate; otherwise the remaining fragments are copied into
`modified := make(dvid.RLEs, l.Len())` by a loop that assigns
`modified[i] = e.Value` without ever incrementing `i` — embedded exactly:
every element is written to index 0, leaving the later slots at the zero
value. -/
def diffFinish (l : List RLE) : DiffOut :=
  if l.isEmpty then DiffOut.ok [] true
  else DiffOut.ok (l.foldl (fun m r => m.set 0 r) (List.replicate l.length RLE.zero)) false

/-- The main loop of `diffBlock` over the `container/list` of original
runs, as a zipper `(left, rest)` whose cursor `e` is the head of `rest`.
The first argument is `srles.drop si`, the split runs not yet consumed:
the loop guard `si < len(srles)` is its non-emptiness and the `si++` on a
successful excision drops one element.  On an excision the fragments are
pushed with `l.InsertAfter(rle, e)` one by one (so they end up after `e`
in reverse order), `e` is removed, the cursor is reset to `e.Prev()` and
then advanced with `e.Next()`; when the removed element was the list
front, `e.Prev()` is nil and the `e.Next()` call dereferences a nil
pointer — a runtime panic, embedded as `nilCrash`. -/
def diffGo : List RLE → List RLE → List RLE → DiffOut
  | _, left, [] => diffFinish left
  | [], left, o :: rs => diffFinish (left ++ o :: rs)
  | s :: stail, left, o :: rs =>
    match findExciseAux o (s :: stail) with
    | none => DiffOut.fail
    | some frags =>
      match left with
      | [] => DiffOut.nilCrash
      | _ :: _ => diffGo stail left (frags.reverse ++ rs)

/-- `diffBlock`, together with the caller-visible state of its two input
slices after the call: the body first copies `split` and `orig` into fresh
slices (`srles`, `orles`) and `sort.Sort` mutates only those copies, so the
caller's slices are returned unchanged. -/
def diffBlockRun (split orig : List RLE) : DiffOut × List RLE × List RLE :=
  let srles := split
  let orles := orig
  let ssorted := insSort rleLE srles
  let osorted := insSort rleLE orles
  (diffGo ssorted [] osorted, split, orig)

/-- The result component of `diffBlock`. -/
def diffBlock (split orig : List RLE) : DiffOut := (diffBlockRun split orig).1

/-! ## Block coordinates, block maps, and the observable-event model -/
/-- A label identifier (`uint64`). -/
abbrev Label := Nat

/-- A block coordinate (`dvid.IZYXString` decoded): byte-lexicographic
order of the encoded string equals Z-major, then Y, then X numeric order,
so the coordinate is modelled as the (Z,Y,X) triple itself. -/
structure IZYX where
  z : Int
  y : Int
  x : Int
deriving DecidableEq, Repr

/-- The strict key order on block coordinates (Z-major, then Y, then X),
the order of `<` on `dvid.IZYXString`. -/
def izyxLt (a b : IZYX) : Bool :=
  decide (a.z < b.z) ||
    (decide (a.z = b.z) &&
      (decide (a.y < b.y) || (decide (a.y = b.y) && decide (a.x < b.x))))

/-- Non-strict key order, for sorting block lists. -/
def izyxLE (a b : IZYX) : Bool := izyxLt a b || decide (a = b)

/-- A label's Block RLE Set (`dvid.BlockRLEs`): one entry per occupied
block, modelled as an association list. -/
abbrev BlockMap := List (IZYX × List RLE)

/-- Look a block up in a block map; Go map indexing yields the zero value
(nil run list) for a missing key. -/
def mapLookupD (m : BlockMap) (b : IZYX) : List RLE :=
  match m.find? (fun p => decide (p.1 = b)) with
  | some p => p.2
  | none => []

/-- Replace the entry for `b`, or append a new one (Go map assignment). -/
def mapInsert (m : BlockMap) (b : IZYX) (rs : List RLE) : BlockMap :=
  if m.any (fun p => decide (p.1 = b)) then
    m.map (fun p => if p.1 = b then (p.1, rs) else p)
  else m ++ [(b, rs)]

/-- Append runs to the entry for `b`, creating it if absent (used by the
block partitioner). -/
def mapAppend (m : BlockMap) (b : IZYX) (rs : List RLE) : BlockMap :=
  if m.any (fun p => decide (p.1 = b)) then
    m.map (fun p => if p.1 = b then (p.1, p.2 ++ rs) else p)
  else m ++ [(b, rs)]

/-- Total voxel count of a Block RLE Set (`NumVoxels`). -/
def numVoxelsMap (m : BlockMap) : Nat := (m.map (fun p => numVoxels p.2)).sum

/-- A merge operation (`labels.MergeOp`): `Merged` is a Go map over
labels, embedded as the list giving its iteration order. -/
structure MergeOp where
  target : Label
  merged : List Label
deriving DecidableEq, Repr

/-- Event payloads delivered to `datastore.NotifySubscribers`
(`labels.Delta*` structs). -/
inductive Delta where
  | mergeStart (target : Label) (merged : List Label)
  | deleteSize (label : Label) (oldSize : Nat)
  | mergeBlockEv (target : Label) (merged : List Label) (blocks : List IZYX)
  | replaceSize (label : Label) (oldSize newSize : Nat)
  | mergeEnd (target : Label) (merged : List Label)
  | splitStart (fromLabel toLabel : Label)
  | splitLabelEv (fromLabel toLabel : Label) (splitmap : BlockMap) (splitblks : List IZYX)
  | newSize (label : Label) (size : Nat)
  | modSize (label : Label) (sizeChange : Int)
  | splitEnd (fromLabel toLabel : Label)
deriving DecidableEq, Repr

/-- Observable actions of an orchestration call: event-bus notifications,
dirty-registry operations, store mutations (queued batch puts/deletes,
range deletes, batch commits) and error logging (`dvid.Errorf`). -/
inductive Ev where
  | notify (d : Delta)
  | addMerge (target : Label) (merged : List Label)
  | removeMerge (target : Label) (merged : List Label)
  | dirtyIncr (label : Label)
  | dirtyDecr (label : Label)
  | deleteRange (label : Label)
  | batchPut (label : Label) (blk : IZYX) (runs : List RLE)
  | batchDelete (label : Label) (blk : IZYX)
  | commit (ok : Bool)
  | logError
deriving DecidableEq, Repr

/-- The kinds of `error` values the two orchestrators can return. -/
inductive ErrKind where
  | storeInit | noBatcher | notifyFail | getRLEs | deleteFail | marshal
  | newLabelFail | readFull | badEncoding | readCount | decodeRLEs
  | partitionFail | writeVolCommit | decodeKey | unmarshalBlock | badSplit
deriving DecidableEq, Repr

/-- The kinds of Go runtime panics the code can hit. -/
inductive CrashKind where
  | indexOOB
  | nilDeref
deriving DecidableEq, Repr

/-- Result of a fallible step: normal value, returned error, or panic. -/
inductive Res (α : Type) where
  | ok (a : α)
  | err (e : ErrKind)
  | crash (k : CrashKind)
deriving DecidableEq, Repr

/-- A computation result together with the chronological trace of its
observable actions. -/
structure W (α : Type) where
  res : Res α
  trace : List Ev
deriving DecidableEq, Repr

instance : Monad W where
  pure a := ⟨Res.ok a, []⟩
  bind x f :=
    match x.res with
    | Res.ok a => ⟨(f a).res, x.trace ++ (f a).trace⟩
    | Res.err e => ⟨Res.err e, x.trace⟩
    | Res.crash k => ⟨Res.crash k, x.trace⟩

/-- Record one observable action. -/
def emitEv (e : Ev) : W Unit := ⟨Res.ok (), [e]⟩

/-- Return an error (`return ..., err`). -/
def failW (e : ErrKind) : W α := ⟨Res.err e, []⟩

/-- Hit a runtime panic. -/
def crashW (k : CrashKind) : W α := ⟨Res.crash k, []⟩

/-- Run `body` with a deferred trailing action `e`: Go's `defer` runs the
registered call on every exit path, normal return, error return and panic
unwinding alike. -/
def withFinal (e : Ev) (body : W α) : W α := ⟨body.res, body.trace ++ [e]⟩

/-! ## The environment: outcomes of external-collaborator calls -/
/-- A chunk delivered by `store.ProcessRange` over `fromLabel`'s blocks:
`keyOk`/`blk` give the outcome of `DecodeKey(chunk.K)` and `rlesOk`/`rles`
the outcome of `rles.UnmarshalBinary(chunk.V)`. -/
structure Chunk where
  keyOk : Bool
  blk : IZYX
  rlesOk : Bool
  rles : List RLE
deriving DecidableEq, Repr

/-- The block grid dimensions (`d.BlockSize`). -/
structure BSize where
  x : Int
  y : Int
  z : Int
deriving DecidableEq, Repr

/-- The environment: the state of the external collaborators (storage,
event bus, label allocator) and the outcome they give to every call the
orchestrators make.  Reads are not affected by this call's own queued
mutations, so the store contents are a fixed map. -/
structure Env where
  /-- `storage.SmallDataStore()` succeeds. -/
  storeOk : Bool
  /-- the store supports `storage.KeyValueBatcher`. -/
  batcherOk : Bool
  /-- outcome of `datastore.NotifySubscribers` for a given message. -/
  notifyOk : Delta → Bool
  /-- `GetLabelRLEs` succeeds for a given label. -/
  getOk : Label → Bool
  /-- the Block RLE Set stored for each label. -/
  store : Label → BlockMap
  /-- `store.DeleteRange` over a label's key range succeeds. -/
  deleteOk : Label → Bool
  /-- `MarshalBinary` of an RLE list succeeds. -/
  marshalOk : Bool
  /-- the final `batch.Commit()` of `MergeLabels` succeeds. -/
  mergeCommitOk : Bool
  /-- `d.NewLabel(v)` succeeds. -/
  newLabelOk : Bool
  /-- the label returned by `d.NewLabel(v)`. -/
  freshLabel : Label
  /-- the bytes of the split sparse-volume payload. -/
  payload : List Nat
  /-- `d.BlockSize`. -/
  blockSize : BSize
  /-- the `batch.Commit()` inside `writeLabelVol` succeeds. -/
  writeVolCommitOk : Bool
  /-- the chunks the range scan would deliver for `fromLabel`, in key
  order; the scan itself filters them to the split's Z range. -/
  chunks : List Chunk
  /-- the final `batch.Commit()` of `SplitLabels` succeeds. -/
  splitCommitOk : Bool

/-- `datastore.NotifySubscribers(evt, msg)`: delivery of the message is
recorded, then the env decides whether the call returns an error (which
the orchestrators propagate). -/
def notifySub (env : Env) (d : Delta) : W Unit :=
  if env.notifyOk d then emitEv (Ev.notify d) else ⟨Res.err ErrKind.notifyFail, [Ev.notify d]⟩

/-! ## MergeLabels -/
/-- Modelled from the spec: `union(a, b)` merges two run lists into one
sorted, coalesced list; adjacent/overlapping runs on the same (Y,Z) row
combine into a single run (`dvid.RLEs.Add`, not part of the source file). -/
def coalesceGo : Nat → List RLE → List RLE
  | 0, l => l
  | _ + 1, [] => []
  | _ + 1, [r] => [r]
  | fuel + 1, a :: b :: rest =>
    if a.z = b.z ∧ a.y = b.y ∧ b.x ≤ a.x + a.len then
      coalesceGo fuel (⟨a.z, a.y, a.x, (max (a.x + a.len) (b.x + b.len) - a.x).toNat⟩ :: rest)
    else a :: coalesceGo fuel (b :: rest)

/-- Coalesce a sorted run list; each step consumes one list element, so
the list length is enough fuel. -/
def coalesce (l : List RLE) : List RLE := coalesceGo l.length l

/-- Union of two run lists (see `coalesce`). -/
def rleUnion (a b : List RLE) : List RLE := coalesce (insSort rleLE (a ++ b))

/-- The inner loop of the merge over one source label's blocks
(lines 1149–1161): mark each block changed, then union the source runs
into the target's entry for that block (or adopt them if absent). -/
def mergeFold : List IZYX → BlockMap → BlockMap → List IZYX × BlockMap
  | blocksChanged, toRLEs, [] => (blocksChanged, toRLEs)
  | blocksChanged, toRLEs, (blk, fromRs) :: rest =>
    let bc := if blocksChanged.any (fun b => decide (b = blk)) then blocksChanged
              else blocksChanged ++ [blk]
    let toRLEs' :=
      match (toRLEs.find? (fun p => decide (p.1 = blk))).map Prod.snd with
      | some toRs => mapInsert toRLEs blk (rleUnion toRs fromRs)
      | none => mapInsert toRLEs blk fromRs
    mergeFold bc toRLEs' rest

/-- The `for fromLabel := range m.Merged` loop of `MergeLabels`
(lines 1126–1170): read the source label's RLEs, accumulate its voxel
count, notify the size deletion, fold its blocks into the target's map and
delete the source label's whole key range. -/
def mergeLoop (env : Env) :
    List Label → List IZYX × BlockMap × Nat → W (List IZYX × BlockMap × Nat)
  | [], st => pure st
  | fromLabel :: rest, (blocksChanged, toRLEs, added) =>
    if env.getOk fromLabel then
      let fromRLEs := env.store fromLabel
      let fromSize := numVoxelsMap fromRLEs
      notifySub env (Delta.deleteSize fromLabel fromSize) >>= fun _ =>
      let st' := mergeFold blocksChanged toRLEs fromRLEs
      if env.deleteOk fromLabel then
        emitEv (Ev.deleteRange fromLabel) >>= fun _ =>
        mergeLoop env rest (st'.1, st'.2, added + fromSize)
      else failW ErrKind.deleteFail
    else failW ErrKind.getRLEs

/-- The batch-put loop of `MergeLabels` (lines 1182–1189): serialize each
changed block's unioned RLEs for the target and queue the put. -/
def mergePuts (env : Env) (target : Label) (toRLEs : BlockMap) : List IZYX → W Unit
  | [] => pure ()
  | blk :: rest =>
    if env.marshalOk then
      emitEv (Ev.batchPut target blk (mapLookupD toRLEs blk)) >>= fun _ =>
      mergePuts env target toRLEs rest
    else failW ErrKind.marshal

/-- The final `batch.Commit()` of `MergeLabels` (lines 1190–1192): on
failure the error is logged with `dvid.Errorf` and execution continues —
the error is not returned. -/
def mergeCommit (env : Env) : W Unit :=
  if env.mergeCommitOk then emitEv (Ev.commit true)
  else emitEv (Ev.commit false) >>= fun _ => emitEv Ev.logError

/-- The body of `MergeLabels` after the dirty marks are added
(lines 1114–1210). -/
def mergeBody (env : Env) (m : MergeOp) : W Unit :=
  if env.getOk m.target then
    let toRLEs := env.store m.target
    let toLabelSize := numVoxelsMap toRLEs
    mergeLoop env m.merged ([], toRLEs, 0) >>= fun st =>
    notifySub env (Delta.mergeBlockEv m.target m.merged st.1) >>= fun _ =>
    mergePuts env m.target st.2.1 st.1 >>= fun _ =>
    mergeCommit env >>= fun _ =>
    notifySub env (Delta.replaceSize m.target toLabelSize (toLabelSize + st.2.2)) >>= fun _ =>
    notifySub env (Delta.mergeEnd m.target m.merged)
  else failW ErrKind.getRLEs

/-- `MergeLabels` (lines 1089–1211): store/batcher preconditions, the
`MergeStart` notification, then `AddMerge` with a deferred `RemoveMerge`
around the body. -/
def MergeLabels (env : Env) (m : MergeOp) : W Unit :=
  if env.storeOk then
    if env.batcherOk then
      notifySub env (Delta.mergeStart m.target m.merged) >>= fun _ =>
      withFinal (Ev.removeMerge m.target m.merged)
        (emitEv (Ev.addMerge m.target m.merged) >>= fun _ => mergeBody env m)
    else failW ErrKind.noBatcher
  else failW ErrKind.storeInit

/-! ## SplitLabels -/
/-- Modelled from the spec: the encoding-format tag for a binary sparse
volume (`dvid.EncodingBinary`, not part of the source file). -/
def encodingBinary : Nat := 0

/-- A little-endian 32-bit value from four bytes. -/
def le32 (b0 b1 b2 b3 : Nat) : Nat := b0 + 256 * (b1 + 256 * (b2 + 256 * b3))

/-- Two's-complement reading of a 32-bit value. -/
def toInt32 (n : Nat) : Int :=
  if n % 2 ^ 32 < 2 ^ 31 then (n % 2 ^ 32 : Nat) else (n % 2 ^ 32 : Nat) - 2 ^ 32

/-- Modelled from the spec: one fixed-width RLE run record — start
coordinate as three little-endian int32 (X,Y,Z), then an int32 run length
(the block-level serialization layout; 16 bytes). -/
def decodeRLEAt (bytes : List Nat) : RLE :=
  { x := toInt32 (le32 (bytes.getD 0 0) (bytes.getD 1 0) (bytes.getD 2 0) (bytes.getD 3 0))
    y := toInt32 (le32 (bytes.getD 4 0) (bytes.getD 5 0) (bytes.getD 6 0) (bytes.getD 7 0))
    z := toInt32 (le32 (bytes.getD 8 0) (bytes.getD 9 0) (bytes.getD 10 0) (bytes.getD 11 0))
    len := (toInt32 (le32 (bytes.getD 12 0) (bytes.getD 13 0) (bytes.getD 14 0) (bytes.getD 15 0))).toNat }

/-- Modelled from the spec: `UnmarshalBinaryReader` reads `n` fixed-width
run records. -/
def decodeRuns : Nat → List Nat → List RLE
  | 0, _ => []
  | n + 1, bytes => decodeRLEAt bytes :: decodeRuns n (bytes.drop 16)

/-- Split one run at X block boundaries (helper of the partitioner); each
produced chunk has width at least 1, so the run length is enough fuel. -/
def splitRunXGo (bsx : Int) : Nat → RLE → List RLE
  | 0, _ => []
  | fuel + 1, r =>
    if r.len = 0 then []
    else
      let width := max 1 ((Int.fdiv r.x bsx + 1) * bsx - r.x).toNat
      let take := min r.len width
      ⟨r.z, r.y, r.x, take⟩ :: splitRunXGo bsx fuel ⟨r.z, r.y, r.x + take, r.len - take⟩

/-- Split one run at X block boundaries. -/
def splitRunX (bsx : Int) (r : RLE) : List RLE := splitRunXGo bsx r.len r

/-- The block coordinate containing the start of a run. -/
def blockOf (bs : BSize) (r : RLE) : IZYX :=
  ⟨Int.fdiv r.z bs.z, Int.fdiv r.y bs.y, Int.fdiv r.x bs.x⟩

/-- Modelled from the spec: `partition(spans, blockSize)` splits a flat
span list into per-block RLE lists according to the fixed block grid; a
run crossing a block boundary is split at the boundary
(`dvid.RLEs.Partition`, not part of the source file). -/
def partitionRLEs (bs : BSize) (runs : List RLE) : BlockMap :=
  runs.foldl
    (fun m r => (splitRunX bs.x r).foldl (fun m c => mapAppend m (blockOf bs c) [c]) m)
    []

/-- `splitmap.SortedKeys()`: the block coordinates in ascending key
order. -/
def sortedKeys (m : BlockMap) : List IZYX := insSort izyxLE (m.map Prod.fst)

/-- `writeLabelVol` (lines 1465–1487): queue one put per split block for
the new label, then commit; this commit's error IS returned. -/
def writeLabelVolPuts (env : Env) (label : Label) (brles : BlockMap) : List IZYX → W Unit
  | [] => pure ()
  | blk :: rest =>
    if env.marshalOk then
      emitEv (Ev.batchPut label blk (mapLookupD brles blk)) >>= fun _ =>
      writeLabelVolPuts env label brles rest
    else failW ErrKind.marshal

/-- `writeLabelVol` (lines 1465–1487). -/
def writeLabelVol (env : Env) (label : Label) (blks : List IZYX) (brles : BlockMap) : W Unit :=
  if env.storeOk then
    if env.batcherOk then
      writeLabelVolPuts env label brles blks >>= fun _ =>
      if env.writeVolCommitOk then emitEv (Ev.commit true)
      else emitEv (Ev.commit false) >>= fun _ => failW ErrKind.writeVolCommit
    else failW ErrKind.noBatcher
  else failW ErrKind.storeInit

/-- The `storage.ChunkProcessor` closure of `SplitLabels`
(lines 1322–1355), acting on the cursor `pos` and queueing batch
deletes/puts.  `splitblk := splitblks[pos]` is evaluated before the
`pos >= len(splitblks)` disjunct of the guard, so a cursor at the end of
`splitblks` panics with an index-out-of-range before the guard can fire;
the embedding keeps the (then unreachable) disjunct in place. -/
def scanStep (env : Env) (splitmap : BlockMap) (splitblks : List IZYX)
    (fromLabel : Label) (pos : Nat) (c : Chunk) : W Nat :=
  if c.keyOk then
    if h : pos < splitblks.length then
      let splitblk := splitblks.get ⟨pos, h⟩
      if izyxLt c.blk splitblk || decide (splitblks.length ≤ pos) then pure pos
      else if c.blk = splitblk then
        if c.rlesOk then
          match diffBlock (mapLookupD splitmap splitblk) c.rles with
          | DiffOut.fail => failW ErrKind.badSplit
          | DiffOut.nilCrash => crashW CrashKind.nilDeref
          | DiffOut.ok modified dup =>
            if dup then emitEv (Ev.batchDelete fromLabel c.blk) >>= fun _ => pure pos
            else
              if env.marshalOk then
                emitEv (Ev.batchPut fromLabel c.blk modified) >>= fun _ => pure pos
              else failW ErrKind.marshal
        else failW ErrKind.unmarshalBlock
      else pure (pos + 1)
    else crashW CrashKind.indexOOB
  else failW ErrKind.decodeKey

/-- `store.ProcessRange` (line 1356): run the callback over the delivered
chunks in key order, stopping at the first error or panic. -/
def scanFold (env : Env) (splitmap : BlockMap) (splitblks : List IZYX)
    (fromLabel : Label) : List Chunk → Nat → W Nat
  | [], pos => pure pos
  | c :: rest, pos =>
    scanStep env splitmap splitblks fromLabel pos c >>= fun pos' =>
    scanFold env splitmap splitblks fromLabel rest pos'

/-- The final `batch.Commit()` of `SplitLabels` (lines 1360–1362): on
failure the error is logged with `dvid.Errorf` and execution continues —
the error is not returned. -/
def splitCommit (env : Env) : W Unit :=
  if env.splitCommitOk then emitEv (Ev.commit true)
  else emitEv (Ev.commit false) >>= fun _ => emitEv Ev.logError

/-- The tail of `SplitLabels` from the Z-range computation on
(lines 1297–1392): `splitblks[0]` and `splitblks[len(splitblks)-1]` are
read with no emptiness guard, so a split that decodes to zero runs panics
with an index-out-of-range. -/
def splitScanPhase (env : Env) (fromLabel toLabel : Label) (toLabelSize : Nat)
    (splitmap : BlockMap) (splitblks : List IZYX) : W Label :=
  match splitblks with
  | [] => crashW CrashKind.indexOOB
  | b0 :: bs =>
    let minZ := b0.z
    let maxZ := ((b0 :: bs).getLastD b0).z
    let delivered := env.chunks.filter (fun c => decide (minZ ≤ c.blk.z) && decide (c.blk.z ≤ maxZ))
    scanFold env splitmap (b0 :: bs) fromLabel delivered 0 >>= fun _ =>
    splitCommit env >>= fun _ =>
    notifySub env (Delta.newSize toLabel toLabelSize) >>= fun _ =>
    notifySub env (Delta.modSize fromLabel (-(toLabelSize : Int))) >>= fun _ =>
    notifySub env (Delta.splitEnd fromLabel toLabel) >>= fun _ =>
    pure toLabel

/-- The payload-reading prefix of `SplitLabels` (lines 1256–1272): read
the 12-byte header (`io.ReadFull` fails on a short payload), check the
encoding tag, read the little-endian 32-bit run count, then read that
many fixed-width run records (a short remainder fails the decode). -/
def decodePayload (payload : List Nat) : Except ErrKind (List RLE) :=
  if payload.length < 12 then Except.error ErrKind.readFull
  else if payload.headD 0 ≠ encodingBinary then Except.error ErrKind.badEncoding
  else if payload.length < 16 then Except.error ErrKind.readCount
  else
    let numSpans := le32 (payload.getD 12 0) (payload.getD 13 0)
      (payload.getD 14 0) (payload.getD 15 0)
    if (payload.drop 16).length < 16 * numSpans then Except.error ErrKind.decodeRLEs
    else Except.ok (decodeRuns numSpans (payload.drop 16))

/-- `split.Partition(d.BlockSize)` (line 1277): see `partitionRLEs`; a
degenerate block grid is the error case. -/
def Partition (bs : BSize) (runs : List RLE) : Except ErrKind BlockMap :=
  if bs.x ≤ 0 ∨ bs.y ≤ 0 ∨ bs.z ≤ 0 then Except.error ErrKind.partitionFail
  else Except.ok (partitionRLEs bs runs)

/-- The body of `SplitLabels` after the dirty mark is added
(lines 1242–1392): allocate the new label, notify the start, decode the
payload, partition into blocks, notify the split, persist the new
label's volume, then scan and reduce the source label. -/
def splitBody (env : Env) (fromLabel : Label) : W Label :=
  if env.newLabelOk then
    let toLabel := env.freshLabel
    notifySub env (Delta.splitStart fromLabel toLabel) >>= fun _ =>
    match decodePayload env.payload with
    | Except.error e => failW e
    | Except.ok split =>
      let toLabelSize := numVoxels split
      match Partition env.blockSize split with
      | Except.error e => failW e
      | Except.ok splitmap =>
        let splitblks := sortedKeys splitmap
        notifySub env (Delta.splitLabelEv fromLabel toLabel splitmap splitblks) >>= fun _ =>
        writeLabelVol env toLabel splitblks splitmap >>= fun _ =>
        splitScanPhase env fromLabel toLabel toLabelSize splitmap splitblks
  else failW ErrKind.newLabelFail

/-- `SplitLabels` (lines 1225–1393): store/batcher preconditions, then
`Incr` of the dirty mark with a deferred `Decr` around the body. -/
def SplitLabels (env : Env) (fromLabel : Label) : W Label :=
  if env.storeOk then
    if env.batcherOk then
      withFinal (Ev.dirtyDecr fromLabel)
        (emitEv (Ev.dirtyIncr fromLabel) >>= fun _ => splitBody env fromLabel)
    else failW ErrKind.noBatcher
  else failW ErrKind.storeInit

/-! ## Concrete environments for witnesses and counterexamples -/
/-- A fully cooperative environment: every external call succeeds, the
store is empty, and the split payload is a well-formed zero-run binary
sparse volume (16 zero bytes: tag byte, header padding, zero run count). -/
def envBase : Env where
  storeOk := true
  batcherOk := true
  notifyOk := fun _ => true
  getOk := fun _ => true
  store := fun _ => []
  deleteOk := fun _ => true
  marshalOk := true
  mergeCommitOk := true
  newLabelOk := true
  freshLabel := 99
  payload := List.replicate 16 0
  blockSize := ⟨32, 32, 32⟩
  writeVolCommitOk := true
  chunks := []
  splitCommitOk := true

/-- A small store: label 1 holds 5 voxels in one block, label 2 holds
3 + 3 voxels in two blocks (the end-to-end merge example of the spec). -/
def mergeStore : Label → BlockMap := fun l =>
  if l = 1 then [(⟨0, 0, 0⟩, [⟨0, 0, 0, 5⟩])]
  else if l = 2 then [(⟨0, 0, 0⟩, [⟨0, 0, 5, 3⟩]), (⟨0, 0, 1⟩, [⟨0, 0, 32, 3⟩])]
  else []

/-- The event-bus messages of a trace, in order. -/
def notifies (t : List Ev) : List Delta :=
  t.filterMap fun e =>
    match e with
    | Ev.notify d => some d
    | _ => none

/-- Events that are not event-bus messages. -/
def noNotifyEv : Ev → Bool
  | Ev.notify _ => false
  | _ => true

/-- Dirty-registry increments of one event. -/
def evIncrs : Ev → List Label
  | Ev.addMerge target merged => target :: merged
  | Ev.dirtyIncr l => [l]
  | _ => []

/-- Dirty-registry decrements of one event. -/
def evDecrs : Ev → List Label
  | Ev.removeMerge target merged => target :: merged
  | Ev.dirtyDecr l => [l]
  | _ => []

/-- All labels incremented in a trace, in order, with multiplicity. -/
def incrsOf (t : List Ev) : List Label := (t.map evIncrs).flatten

/-- All labels decremented in a trace, in order, with multiplicity. -/
def decrsOf (t : List Ev) : List Label := (t.map evDecrs).flatten

/-- Events that touch the dirty registry. -/
def notDirtyEv : Ev → Bool
  | Ev.addMerge _ _ => false
  | Ev.removeMerge _ _ => false
  | Ev.dirtyIncr _ => false
  | Ev.dirtyDecr _ => false
  | _ => true

/-- The merge messages that may appear between `MergeStart` and
`MergeEnd`: size deltas and the block-level merge delta. -/
def isMergeMid : Delta → Bool
  | Delta.deleteSize _ _ => true
  | Delta.mergeBlockEv _ _ _ => true
  | Delta.replaceSize _ _ _ => true
  | _ => false

/-- The split messages that may appear between `SplitStart` and
`SplitEnd`: the block-level split delta and size deltas. -/
def isSplitMid : Delta → Bool
  | Delta.splitLabelEv _ _ _ _ => true
  | Delta.newSize _ _ => true
  | Delta.modSize _ _ => true
  | _ => false

/-- The events of `x` on the bus are a run of `p`-messages, possibly
closed by the single message `endEv`. -/
def NotifyShape (p : Delta → Bool) (endEv : Delta) (x : W α) : Prop :=
  ∃ ds, ds.all p = true ∧
    (notifies x.trace = ds ∨ notifies x.trace = ds ++ [endEv])

/-- The events of `x` on the bus form a `Start → mids → End` prefix:
empty, or the start message followed by a run of `p`-messages, possibly
closed by the end message. -/
def StartShape (startEv : Delta) (p : Delta → Bool) (endEv : Delta) (x : W α) : Prop :=
  notifies x.trace = [] ∨
    ∃ ds, ds.all p = true ∧
      (notifies x.trace = startEv :: ds ∨ notifies x.trace = startEv :: (ds ++ [endEv]))

/-- The sum of the stored voxel counts of a list of labels. -/
def sumStoreSizes (env : Env) (ls : List Label) : Nat :=
  (ls.map fun l => numVoxelsMap (env.store l)).sum

/-- Events that write or delete stored block entries (queued batch
puts/deletes, range deletes) or commit a batch. -/
def noBlockWriteEv : Ev → Bool
  | Ev.batchPut _ _ _ => false
  | Ev.batchDelete _ _ => false
  | Ev.deleteRange _ => false
  | Ev.commit _ => false
  | _ => true

/-- The merge operation of the spec's end-to-end example: absorb label 2
into label 1. -/
def mOp : MergeOp := ⟨1, [2]⟩

/-- `envBase` with the two-label store: the environment of a fully
successful merge. -/
def envC7 : Env := { envBase with store := mergeStore }

/-- `envC7` with a failing final merge commit. -/
def envC3 : Env := { envBase with store := mergeStore, mergeCommitOk := false }

/-- `envBase` with a split payload whose first header byte is not the
binary-sparse-volume encoding tag. -/
def envC8 : Env := { envBase with payload := 1 :: List.replicate 15 0 }

/-- A concrete block coordinate for the scan-callback witness. -/
def blkW : IZYX := ⟨0, 0, 0⟩

/-- A one-block split map for the scan-callback witness. -/
def splitmapW : BlockMap := [(blkW, [⟨0, 0, 0, 5⟩])]

/-- A scanned chunk whose coordinate equals the split cursor's block and
whose stored run list is empty (so the differencer reports a full
duplicate). -/
def chunkW : Chunk := ⟨true, blkW, true, []⟩

example : diffBlock [] [] = DiffOut.ok [] true := by decide

example : diffBlock [] [⟨0, 0, 0, 10⟩] = DiffOut.ok [⟨0, 0, 0, 10⟩] false := by decide

example : diffBlock [⟨0, 0, 2, 3⟩] [⟨0, 0, 0, 10⟩] = DiffOut.nilCrash := by decide

theorem bind_def (x : W α) (f : α → W β) :
    x >>= f =
      match x.res with
      | Res.ok a => ⟨(f a).res, x.trace ++ (f a).trace⟩
      | Res.err e => ⟨Res.err e, x.trace⟩
      | Res.crash k => ⟨Res.crash k, x.trace⟩ := rfl

theorem bind_mk_ok (a : α) (t : List Ev) (f : α → W β) :
    (W.mk (Res.ok a) t >>= f) = ⟨(f a).res, t ++ (f a).trace⟩ := rfl

theorem bind_mk_err (e : ErrKind) (t : List Ev) (f : α → W β) :
    (W.mk (Res.err e) t >>= f) = ⟨Res.err e, t⟩ := rfl

theorem bind_mk_crash (k : CrashKind) (t : List Ev) (f : α → W β) :
    (W.mk (Res.crash k) t >>= f) = ⟨Res.crash k, t⟩ := rfl

example : (MergeLabels { envBase with store := mergeStore } ⟨1, [2]⟩).res = Res.ok () := by
  decide

example :
    Ev.notify (Delta.replaceSize 1 5 11) ∈
      (MergeLabels { envBase with store := mergeStore } ⟨1, [2]⟩).trace := by decide

example : (SplitLabels envBase 7).res = Res.crash CrashKind.indexOOB := by decide

/-! ## Trace infrastructure lemmas -/
theorem res_bind_ok {x : W α} {f : α → W β} {b : β} :
    (x >>= f).res = Res.ok b ↔ ∃ a, x.res = Res.ok a ∧ (f a).res = Res.ok b := by
  obtain ⟨r, t⟩ := x
  cases r <;> simp [bind_def]

theorem trace_bind_of_ok {x : W α} {f : α → W β} {a : α} (hx : x.res = Res.ok a) :
    (x >>= f).trace = x.trace ++ (f a).trace := by
  obtain ⟨r, t⟩ := x
  cases r <;> simp_all [bind_def]

theorem mem_trace_bind_right {x : W α} {f : α → W β} {a : α} (hx : x.res = Res.ok a)
    (e : Ev) (he : e ∈ (f a).trace) : e ∈ (x >>= f).trace := by
  rw [trace_bind_of_ok hx]
  exact List.mem_append_right _ he

theorem all_trace_bind (p : Ev → Bool) {x : W α} {f : α → W β}
    (hx : x.trace.all p = true) (hf : ∀ a, (f a).trace.all p = true) :
    ((x >>= f).trace.all p) = true := by
  obtain ⟨r, t⟩ := x
  cases r <;> simp_all [bind_def, List.all_append]
  exact hf _

theorem all_trace_withFinal (p : Ev → Bool) {x : W α} {e : Ev}
    (hx : x.trace.all p = true) (he : p e = true) :
    ((withFinal e x).trace.all p) = true := by
  simp_all [withFinal, List.all_append]

theorem notifies_append (a b : List Ev) : notifies (a ++ b) = notifies a ++ notifies b :=
  List.filterMap_append a b _

theorem notifies_eq_nil {t : List Ev} (h : t.all noNotifyEv = true) : notifies t = [] := by
  induction t with
  | nil => rfl
  | cons e rest ih =>
    simp only [List.all_cons, Bool.and_eq_true] at h
    cases e <;> simp_all [notifies, noNotifyEv]

theorem incrsOf_append (a b : List Ev) : incrsOf (a ++ b) = incrsOf a ++ incrsOf b := by
  simp [incrsOf]

theorem decrsOf_append (a b : List Ev) : decrsOf (a ++ b) = decrsOf a ++ decrsOf b := by
  simp [decrsOf]

theorem incrsOf_eq_nil {t : List Ev} (h : t.all notDirtyEv = true) : incrsOf t = [] := by
  induction t with
  | nil => rfl
  | cons e rest ih =>
    simp only [List.all_cons, Bool.and_eq_true] at h
    cases e <;> simp_all [incrsOf, evIncrs, notDirtyEv]

theorem decrsOf_eq_nil {t : List Ev} (h : t.all notDirtyEv = true) : decrsOf t = [] := by
  induction t with
  | nil => rfl
  | cons e rest ih =>
    simp only [List.all_cons, Bool.and_eq_true] at h
    cases e <;> simp_all [decrsOf, evDecrs, notDirtyEv]

theorem notifySub_trace (env : Env) (d : Delta) : (notifySub env d).trace = [Ev.notify d] := by
  simp only [notifySub, emitEv]
  split <;> rfl

theorem pure_trace (a : α) : (pure a : W α).trace = [] := rfl

theorem mergeLoop_dirtyFree (env : Env) :
    ∀ (ls : List Label) (st : List IZYX × BlockMap × Nat),
      ((mergeLoop env ls st).trace.all notDirtyEv) = true := by
  intro ls
  induction ls with
  | nil => intro st; rfl
  | cons f rest ih =>
    intro st
    obtain ⟨bc, tom, added⟩ := st
    simp only [mergeLoop]
    split
    · apply all_trace_bind
      · rw [notifySub_trace]; rfl
      · intro _
        split
        · apply all_trace_bind
          · rfl
          · intro _; exact ih _
        · rfl
    · rfl

theorem mergePuts_dirtyFree (env : Env) (target : Label) (toRLEs : BlockMap) :
    ∀ blks : List IZYX, ((mergePuts env target toRLEs blks).trace.all notDirtyEv) = true := by
  intro blks
  induction blks with
  | nil => rfl
  | cons blk rest ih =>
    simp only [mergePuts]
    split
    · apply all_trace_bind
      · rfl
      · intro _; exact ih
    · rfl

theorem mergeCommit_dirtyFree (env : Env) : ((mergeCommit env).trace.all notDirtyEv) = true := by
  simp only [mergeCommit]
  split <;> rfl

theorem mergeBody_dirtyFree (env : Env) (m : MergeOp) :
    ((mergeBody env m).trace.all notDirtyEv) = true := by
  simp only [mergeBody]
  split
  · apply all_trace_bind
    · exact mergeLoop_dirtyFree env _ _
    · intro st
      apply all_trace_bind
      · rw [notifySub_trace]; rfl
      · intro _
        apply all_trace_bind
        · exact mergePuts_dirtyFree env _ _ _
        · intro _
          apply all_trace_bind
          · exact mergeCommit_dirtyFree env
          · intro _
            apply all_trace_bind
            · rw [notifySub_trace]; rfl
            · intro _; rw [notifySub_trace]; rfl
  · rfl

theorem writeLabelVolPuts_dirtyFree (env : Env) (label : Label) (brles : BlockMap) :
    ∀ blks : List IZYX, ((writeLabelVolPuts env label brles blks).trace.all notDirtyEv) = true := by
  intro blks
  induction blks with
  | nil => rfl
  | cons blk rest ih =>
    simp only [writeLabelVolPuts]
    split
    · apply all_trace_bind
      · rfl
      · intro _; exact ih
    · rfl

theorem writeLabelVol_dirtyFree (env : Env) (label : Label) (blks : List IZYX) (brles : BlockMap) :
    ((writeLabelVol env label blks brles).trace.all notDirtyEv) = true := by
  simp only [writeLabelVol]
  split
  · split
    · apply all_trace_bind
      · exact writeLabelVolPuts_dirtyFree env _ _ _
      · intro _
        split
        · rfl
        · rfl
    · rfl
  · rfl

theorem scanStep_dirtyFree (env : Env) (splitmap : BlockMap) (splitblks : List IZYX)
    (fromLabel : Label) (pos : Nat) (c : Chunk) :
    ((scanStep env splitmap splitblks fromLabel pos c).trace.all notDirtyEv) = true := by
  simp only [scanStep]
  repeat' split
  all_goals rfl

theorem scanFold_dirtyFree (env : Env) (splitmap : BlockMap) (splitblks : List IZYX)
    (fromLabel : Label) :
    ∀ (cs : List Chunk) (pos : Nat),
      ((scanFold env splitmap splitblks fromLabel cs pos).trace.all notDirtyEv) = true := by
  intro cs
  induction cs with
  | nil => intro pos; rfl
  | cons c rest ih =>
    intro pos
    simp only [scanFold]
    apply all_trace_bind
    · exact scanStep_dirtyFree env _ _ _ _ _
    · intro pos'; exact ih _

theorem splitCommit_dirtyFree (env : Env) : ((splitCommit env).trace.all notDirtyEv) = true := by
  simp only [splitCommit]
  split <;> rfl

theorem splitScanPhase_dirtyFree (env : Env) (fromLabel toLabel : Label) (toLabelSize : Nat)
    (splitmap : BlockMap) (splitblks : List IZYX) :
    ((splitScanPhase env fromLabel toLabel toLabelSize splitmap splitblks).trace.all notDirtyEv)
      = true := by
  cases splitblks with
  | nil => rfl
  | cons b0 bs =>
    simp only [splitScanPhase]
    apply all_trace_bind
    · exact scanFold_dirtyFree env _ _ _ _ _
    · intro _
      apply all_trace_bind
      · exact splitCommit_dirtyFree env
      · intro _
        apply all_trace_bind
        · rw [notifySub_trace]; rfl
        · intro _
          apply all_trace_bind
          · rw [notifySub_trace]; rfl
          · intro _
            apply all_trace_bind
            · rw [notifySub_trace]; rfl
            · intro _; rfl

theorem splitBody_dirtyFree (env : Env) (fromLabel : Label) :
    ((splitBody env fromLabel).trace.all notDirtyEv) = true := by
  simp only [splitBody]
  split
  · apply all_trace_bind
    · rw [notifySub_trace]; rfl
    · intro _
      split
      · rfl
      · split
        · rfl
        · apply all_trace_bind
          · rw [notifySub_trace]; rfl
          · intro _
            apply all_trace_bind
            · exact writeLabelVol_dirtyFree env _ _ _
            · intro _; exact splitScanPhase_dirtyFree env _ _ _ _ _
  · rfl

theorem notifies_all_bind (p : Delta → Bool) {x : W α} {f : α → W β}
    (hx : ((notifies x.trace).all p) = true) (hf : ∀ a, ((notifies (f a).trace).all p) = true) :
    ((notifies ((x >>= f)).trace).all p) = true := by
  obtain ⟨r, t⟩ := x
  cases r <;> simp_all [bind_def, notifies_append, List.all_append]
  exact hf _

theorem notifies_all_of_noNotify (p : Delta → Bool) {t : List Ev} (h : t.all noNotifyEv = true) :
    ((notifies t).all p) = true := by
  rw [notifies_eq_nil h]; rfl

theorem mergePuts_noNotify (env : Env) (target : Label) (toRLEs : BlockMap) :
    ∀ blks : List IZYX, ((mergePuts env target toRLEs blks).trace.all noNotifyEv) = true := by
  intro blks
  induction blks with
  | nil => rfl
  | cons blk rest ih =>
    simp only [mergePuts]
    split
    · apply all_trace_bind
      · rfl
      · intro _; exact ih
    · rfl

theorem mergeCommit_noNotify (env : Env) : ((mergeCommit env).trace.all noNotifyEv) = true := by
  simp only [mergeCommit]
  split <;> rfl

theorem writeLabelVolPuts_noNotify (env : Env) (label : Label) (brles : BlockMap) :
    ∀ blks : List IZYX, ((writeLabelVolPuts env label brles blks).trace.all noNotifyEv) = true := by
  intro blks
  induction blks with
  | nil => rfl
  | cons blk rest ih =>
    simp only [writeLabelVolPuts]
    split
    · apply all_trace_bind
      · rfl
      · intro _; exact ih
    · rfl

theorem writeLabelVol_noNotify (env : Env) (label : Label) (blks : List IZYX) (brles : BlockMap) :
    ((writeLabelVol env label blks brles).trace.all noNotifyEv) = true := by
  simp only [writeLabelVol]
  split
  · split
    · apply all_trace_bind
      · exact writeLabelVolPuts_noNotify env _ _ _
      · intro _
        split
        · rfl
        · rfl
    · rfl
  · rfl

theorem scanStep_noNotify (env : Env) (splitmap : BlockMap) (splitblks : List IZYX)
    (fromLabel : Label) (pos : Nat) (c : Chunk) :
    ((scanStep env splitmap splitblks fromLabel pos c).trace.all noNotifyEv) = true := by
  simp only [scanStep]
  repeat' split
  all_goals rfl

theorem scanFold_noNotify (env : Env) (splitmap : BlockMap) (splitblks : List IZYX)
    (fromLabel : Label) :
    ∀ (cs : List Chunk) (pos : Nat),
      ((scanFold env splitmap splitblks fromLabel cs pos).trace.all noNotifyEv) = true := by
  intro cs
  induction cs with
  | nil => intro pos; rfl
  | cons c rest ih =>
    intro pos
    simp only [scanFold]
    apply all_trace_bind
    · exact scanStep_noNotify env _ _ _ _ _
    · intro pos'; exact ih _

theorem splitCommit_noNotify (env : Env) : ((splitCommit env).trace.all noNotifyEv) = true := by
  simp only [splitCommit]
  split <;> rfl

theorem shape_of_all {p : Delta → Bool} {endEv : Delta} {x : W α}
    (hx : ((notifies x.trace).all p) = true) : NotifyShape p endEv x :=
  ⟨notifies x.trace, hx, Or.inl rfl⟩

theorem shape_bind {p : Delta → Bool} {endEv : Delta} {x : W α} {f : α → W β}
    (hx : ((notifies x.trace).all p) = true) (hf : ∀ a, NotifyShape p endEv (f a)) :
    NotifyShape p endEv (x >>= f) := by
  obtain ⟨r, t⟩ := x
  cases r with
  | ok a =>
    obtain ⟨ds, hall, hcase⟩ := hf a
    refine ⟨notifies t ++ ds, ?_, ?_⟩
    · simp_all [List.all_append]
    · cases hcase with
      | inl h => exact Or.inl (by simp [bind_def, notifies_append, h])
      | inr h => exact Or.inr (by simp [bind_def, notifies_append, h])
  | err e => exact ⟨notifies t, hx, Or.inl (by simp [bind_def])⟩
  | crash k => exact ⟨notifies t, hx, Or.inl (by simp [bind_def])⟩

theorem shape_end {p : Delta → Bool} (env : Env) (endEv : Delta) :
    NotifyShape p endEv (notifySub env endEv) :=
  ⟨[], rfl, Or.inr (by rw [notifySub_trace]; rfl)⟩

theorem shape_end_pure {p : Delta → Bool} (env : Env) (endEv : Delta) (a : α) :
    NotifyShape p endEv (notifySub env endEv >>= fun _ => pure a) := by
  refine ⟨[], rfl, Or.inr ?_⟩
  simp only [notifySub, emitEv]
  split <;> rfl

theorem mergeLoop_notify_mid (env : Env) :
    ∀ (ls : List Label) (st : List IZYX × BlockMap × Nat),
      ((notifies (mergeLoop env ls st).trace).all isMergeMid) = true := by
  intro ls
  induction ls with
  | nil => intro st; rfl
  | cons f rest ih =>
    intro st
    obtain ⟨bc, tom, added⟩ := st
    simp only [mergeLoop]
    split
    · apply notifies_all_bind
      · rw [notifySub_trace]; rfl
      · intro _
        split
        · apply notifies_all_bind
          · rfl
          · intro _; exact ih _
        · rfl
    · rfl

theorem mergeBody_shape (env : Env) (m : MergeOp) :
    NotifyShape isMergeMid (Delta.mergeEnd m.target m.merged) (mergeBody env m) := by
  simp only [mergeBody]
  split
  · apply shape_bind (mergeLoop_notify_mid env _ _)
    intro st
    apply shape_bind (by rw [notifySub_trace]; rfl)
    intro _
    apply shape_bind (notifies_all_of_noNotify _ (mergePuts_noNotify env _ _ _))
    intro _
    apply shape_bind (notifies_all_of_noNotify _ (mergeCommit_noNotify env))
    intro _
    apply shape_bind (by rw [notifySub_trace]; rfl)
    intro _
    exact shape_end env _
  · exact shape_of_all rfl

theorem splitScanPhase_shape (env : Env) (fromLabel toLabel : Label) (toLabelSize : Nat)
    (splitmap : BlockMap) (splitblks : List IZYX) :
    NotifyShape isSplitMid (Delta.splitEnd fromLabel toLabel)
      (splitScanPhase env fromLabel toLabel toLabelSize splitmap splitblks) := by
  cases splitblks with
  | nil => exact shape_of_all rfl
  | cons b0 bs =>
    simp only [splitScanPhase]
    apply shape_bind (notifies_all_of_noNotify _ (scanFold_noNotify env _ _ _ _ _))
    intro _
    apply shape_bind (notifies_all_of_noNotify _ (splitCommit_noNotify env))
    intro _
    apply shape_bind (by rw [notifySub_trace]; rfl)
    intro _
    apply shape_bind (by rw [notifySub_trace]; rfl)
    intro _
    exact shape_end_pure env _ _

theorem startShape_of (env : Env) (startEv : Delta) {p : Delta → Bool} {endEv : Delta}
    {f : Unit → W β} (hf : NotifyShape p endEv (f ())) :
    StartShape startEv p endEv (notifySub env startEv >>= f) := by
  right
  by_cases hn : env.notifyOk startEv
  · obtain ⟨ds, hall, hcase⟩ := hf
    refine ⟨ds, hall, ?_⟩
    have ht : (notifySub env startEv).res = Res.ok () := by
      simp [notifySub, hn, emitEv]
    rw [trace_bind_of_ok ht, notifies_append, notifySub_trace]
    cases hcase with
    | inl h => exact Or.inl (by rw [h]; rfl)
    | inr h => exact Or.inr (by rw [h]; rfl)
  · refine ⟨[], rfl, Or.inl ?_⟩
    have : notifySub env startEv = ⟨Res.err ErrKind.notifyFail, [Ev.notify startEv]⟩ := by
      simp [notifySub, hn]
    rw [this, bind_mk_err]
    rfl

theorem splitBody_shape (env : Env) (fromLabel : Label) :
    StartShape (Delta.splitStart fromLabel env.freshLabel) isSplitMid
      (Delta.splitEnd fromLabel env.freshLabel) (splitBody env fromLabel) := by
  simp only [splitBody]
  split
  · apply startShape_of
    repeat'
      first
      | exact splitScanPhase_shape env _ _ _ _ _
      | exact shape_of_all rfl
      | (apply shape_bind (notifies_all_of_noNotify _ (writeLabelVol_noNotify env _ _ _)); intro _)
      | (apply shape_bind (p := isSplitMid) (by rw [notifySub_trace]; rfl); intro _)
      | split
  · exact Or.inl rfl

theorem mem_trace_bind_left {x : W α} {f : α → W β} (e : Ev) (he : e ∈ x.trace) :
    e ∈ (x >>= f).trace := by
  obtain ⟨r, t⟩ := x
  cases r with
  | ok a => exact List.mem_append_left _ he
  | err e' => exact he
  | crash k => exact he

theorem withFinal_res (e : Ev) (x : W α) : (withFinal e x).res = x.res := rfl

theorem mem_trace_withFinal {x : W α} (e ev : Ev) (he : e ∈ x.trace) :
    e ∈ (withFinal ev x).trace :=
  List.mem_append_left _ he

theorem notifySub_res (env : Env) (d : Delta) :
    (notifySub env d).res = if env.notifyOk d then Res.ok () else Res.err ErrKind.notifyFail := by
  simp only [notifySub, emitEv]
  split <;> rfl

theorem mergeCommit_res (env : Env) : (mergeCommit env).res = Res.ok () := by
  simp only [mergeCommit]
  split <;> rfl

theorem splitCommit_res (env : Env) : (splitCommit env).res = Res.ok () := by
  simp only [splitCommit]
  split <;> rfl

theorem mergeCommit_logs (env : Env) (h : env.mergeCommitOk = false) :
    Ev.logError ∈ (mergeCommit env).trace := by
  simp [mergeCommit, h, emitEv, bind_def]

theorem splitCommit_logs (env : Env) (h : env.splitCommitOk = false) :
    Ev.logError ∈ (splitCommit env).trace := by
  simp [splitCommit, h, emitEv, bind_def]

theorem mergeLoop_added (env : Env) :
    ∀ (ls : List Label) (bc : List IZYX) (tom : BlockMap) (added : Nat)
      (st' : List IZYX × BlockMap × Nat),
      (mergeLoop env ls (bc, tom, added)).res = Res.ok st' →
      st'.2.2 = added + sumStoreSizes env ls := by
  intro ls
  induction ls with
  | nil =>
    intro bc tom added st' h
    have : st' = (bc, tom, added) := by
      simpa [mergeLoop, pure] using h.symm
    simp [this, sumStoreSizes]
  | cons f rest ih =>
    intro bc tom added st' h
    simp only [mergeLoop] at h
    split at h
    · rw [res_bind_ok] at h
      obtain ⟨u, hu, h2⟩ := h
      split at h2
      · rw [res_bind_ok] at h2
        obtain ⟨u', hu', h3⟩ := h2
        have := ih _ _ _ _ h3
        rw [this]
        simp [sumStoreSizes]
        omega
      · exact absurd h2 (by simp [failW])
    · exact absurd h (by simp [failW])

theorem emit_bind_res (e : Ev) (f : Unit → W α) : (emitEv e >>= f).res = (f ()).res := rfl

theorem notifies_singleton_nil (e : Ev) (he : noNotifyEv e = true) : notifies [e] = [] := by
  cases e <;> simp_all [notifies, noNotifyEv]

theorem notifies_wrap (ev ev' : Ev) (hev : noNotifyEv ev = true) (hev' : noNotifyEv ev' = true)
    (x : W α) :
    notifies (withFinal ev (emitEv ev' >>= fun _ => x)).trace = notifies x.trace := by
  have h1 : (withFinal ev (emitEv ev' >>= fun _ => x)).trace = [ev'] ++ x.trace ++ [ev] := rfl
  rw [h1, notifies_append, notifies_append, notifies_singleton_nil ev hev,
    notifies_singleton_nil ev' hev']
  simp

theorem shape_wrap {p : Delta → Bool} {endEv : Delta} (ev ev' : Ev)
    (hev : noNotifyEv ev = true) (hev' : noNotifyEv ev' = true) {x : W α}
    (hx : NotifyShape p endEv x) :
    NotifyShape p endEv (withFinal ev (emitEv ev' >>= fun _ => x)) := by
  obtain ⟨ds, hall, hcase⟩ := hx
  exact ⟨ds, hall, by rw [notifies_wrap ev ev' hev hev']; exact hcase⟩

theorem startShape_wrap {s : Delta} {p : Delta → Bool} {e : Delta} (ev ev' : Ev)
    (hev : noNotifyEv ev = true) (hev' : noNotifyEv ev' = true) {x : W α}
    (hx : StartShape s p e x) :
    StartShape s p e (withFinal ev (emitEv ev' >>= fun _ => x)) := by
  unfold StartShape at hx ⊢
  rw [notifies_wrap ev ev' hev hev']
  exact hx

theorem MergeLabels_ok_parts (env : Env) (m : MergeOp)
    (h : (MergeLabels env m).res = Res.ok ()) :
    env.storeOk = true ∧ env.batcherOk = true ∧
      env.notifyOk (Delta.mergeStart m.target m.merged) = true ∧
      (mergeBody env m).res = Res.ok () := by
  simp only [MergeLabels] at h
  by_cases hs : env.storeOk = true
  · rw [if_pos hs] at h
    by_cases hb : env.batcherOk = true
    · rw [if_pos hb] at h
      rw [res_bind_ok] at h
      obtain ⟨u, hu, h2⟩ := h
      rw [notifySub_res] at hu
      by_cases hn : env.notifyOk (Delta.mergeStart m.target m.merged) = true
      · exact ⟨hs, hb, hn, h2⟩
      · rw [if_neg hn] at hu
        exact absurd hu (by simp)
    · rw [if_neg hb] at h
      exact absurd h (by simp [failW])
  · rw [if_neg hs] at h
    exact absurd h (by simp [failW])

theorem mergeBody_ok_facts (env : Env) (m : MergeOp)
    (h : (mergeBody env m).res = Res.ok ()) :
    (∃ st, (mergeLoop env m.merged ([], env.store m.target, 0)).res = Res.ok st ∧
       Ev.notify (Delta.replaceSize m.target (numVoxelsMap (env.store m.target))
         (numVoxelsMap (env.store m.target) + st.2.2)) ∈ (mergeBody env m).trace) ∧
    (env.mergeCommitOk = false → Ev.logError ∈ (mergeBody env m).trace) := by
  by_cases hget : env.getOk m.target = true
  · simp only [mergeBody, if_pos hget] at h ⊢
    rw [res_bind_ok] at h
    obtain ⟨st, hst, h2⟩ := h
    rw [res_bind_ok] at h2
    obtain ⟨u1, hblk, h3⟩ := h2
    rw [res_bind_ok] at h3
    obtain ⟨u2, hputs, h4⟩ := h3
    constructor
    · refine ⟨st, hst, ?_⟩
      apply mem_trace_bind_right hst
      apply mem_trace_bind_right hblk
      apply mem_trace_bind_right hputs
      apply mem_trace_bind_right (mergeCommit_res env)
      apply mem_trace_bind_left
      rw [notifySub_trace]
      exact List.mem_singleton.mpr rfl
    · intro hcf
      apply mem_trace_bind_right hst
      apply mem_trace_bind_right hblk
      apply mem_trace_bind_right hputs
      apply mem_trace_bind_left
      exact mergeCommit_logs env hcf
  · simp only [mergeBody, if_neg hget] at h
    exact absurd h (by simp [failW])

theorem mem_MergeLabels_of_body (env : Env) (m : MergeOp)
    (hs : env.storeOk = true) (hb : env.batcherOk = true)
    (hn : env.notifyOk (Delta.mergeStart m.target m.merged) = true)
    {e : Ev} (he : e ∈ (mergeBody env m).trace) : e ∈ (MergeLabels env m).trace := by
  simp only [MergeLabels, if_pos hs, if_pos hb]
  have hres : (notifySub env (Delta.mergeStart m.target m.merged)).res = Res.ok () := by
    rw [notifySub_res, if_pos hn]
  apply mem_trace_bind_right hres
  apply mem_trace_withFinal
  exact mem_trace_bind_right rfl _ he

theorem SplitLabels_ok_parts (env : Env) (fromLabel : Label) (l : Label)
    (h : (SplitLabels env fromLabel).res = Res.ok l) :
    env.storeOk = true ∧ env.batcherOk = true ∧ (splitBody env fromLabel).res = Res.ok l := by
  simp only [SplitLabels] at h
  by_cases hs : env.storeOk = true
  · rw [if_pos hs] at h
    by_cases hb : env.batcherOk = true
    · rw [if_pos hb] at h
      exact ⟨hs, hb, h⟩
    · rw [if_neg hb] at h
      exact absurd h (by simp [failW])
  · rw [if_neg hs] at h
    exact absurd h (by simp [failW])

theorem mem_SplitLabels_of_body (env : Env) (fromLabel : Label)
    (hs : env.storeOk = true) (hb : env.batcherOk = true)
    {e : Ev} (he : e ∈ (splitBody env fromLabel).trace) : e ∈ (SplitLabels env fromLabel).trace := by
  simp only [SplitLabels, if_pos hs, if_pos hb]
  apply mem_trace_withFinal
  exact mem_trace_bind_right rfl _ he

theorem splitScanPhase_ok_commitLog (env : Env) (fromLabel toLabel : Label)
    (toLabelSize : Nat) (splitmap : BlockMap) (splitblks : List IZYX) (l : Label)
    (h : (splitScanPhase env fromLabel toLabel toLabelSize splitmap splitblks).res = Res.ok l)
    (hcf : env.splitCommitOk = false) :
    Ev.logError ∈ (splitScanPhase env fromLabel toLabel toLabelSize splitmap splitblks).trace := by
  cases splitblks with
  | nil => exact absurd h (by simp [splitScanPhase, crashW])
  | cons b0 bs =>
    simp only [splitScanPhase] at h ⊢
    rw [res_bind_ok] at h
    obtain ⟨pos, hscan, h2⟩ := h
    apply mem_trace_bind_right hscan
    apply mem_trace_bind_left
    exact splitCommit_logs env hcf

theorem splitBody_ok_commitLog (env : Env) (fromLabel : Label) (l : Label)
    (h : (splitBody env fromLabel).res = Res.ok l) (hcf : env.splitCommitOk = false) :
    Ev.logError ∈ (splitBody env fromLabel).trace := by
  by_cases hnl : env.newLabelOk = true
  · simp only [splitBody, if_pos hnl] at h ⊢
    rw [res_bind_ok] at h
    obtain ⟨u, hstart, h2⟩ := h
    obtain ⟨⟩ := u
    apply mem_trace_bind_right hstart
    cases hdp : decodePayload env.payload with
    | error e =>
      rw [hdp] at h2
      exact absurd h2 (by simp [failW])
    | ok split =>
      rw [hdp] at h2
      dsimp only at h2 ⊢
      cases hpt : Partition env.blockSize split with
      | error e =>
        rw [hpt] at h2
        exact absurd h2 (by simp [failW])
      | ok splitmap =>
        rw [hpt] at h2
        dsimp only at h2 ⊢
        rw [res_bind_ok] at h2
        obtain ⟨u1, hsl, h3⟩ := h2
        rw [res_bind_ok] at h3
        obtain ⟨u2, hwv, h4⟩ := h3
        apply mem_trace_bind_right hsl
        apply mem_trace_bind_right hwv
        exact splitScanPhase_ok_commitLog env _ _ _ _ _ l h4 hcf
  · simp only [splitBody, if_neg hnl] at h
    exact absurd h (by simp [failW])

theorem izyxLt_total (a b : IZYX) (hlt : izyxLt a b = false) (hne : a ≠ b) :
    izyxLt b a = true := by
  obtain ⟨az, ay, ax⟩ := a
  obtain ⟨bz, yb, xb⟩ := b
  have hlt' : ¬(izyxLt ⟨az, ay, ax⟩ ⟨bz, yb, xb⟩ = true) := by simp [hlt]
  simp only [izyxLt, Bool.or_eq_true, Bool.and_eq_true, decide_eq_true_eq] at hlt' ⊢
  have hne' : ¬(az = bz ∧ ay = yb ∧ ax = xb) := by simpa [IZYX.mk.injEq] using hne
  omega

theorem MergeLabels_dirty_balance (env : Env) (m : MergeOp) :
    incrsOf (MergeLabels env m).trace = decrsOf (MergeLabels env m).trace := by
  simp only [MergeLabels]
  by_cases hs : env.storeOk = true
  case neg => rw [if_neg hs]; rfl
  rw [if_pos hs]
  by_cases hb : env.batcherOk = true
  case neg => rw [if_neg hb]; rfl
  rw [if_pos hb]
  by_cases hn : env.notifyOk (Delta.mergeStart m.target m.merged) = true
  · have hres : (notifySub env (Delta.mergeStart m.target m.merged)).res = Res.ok () := by
      rw [notifySub_res, if_pos hn]
    rw [trace_bind_of_ok hres, notifySub_trace]
    have hbody := mergeBody_dirtyFree env m
    have hI := incrsOf_eq_nil hbody
    have hD := decrsOf_eq_nil hbody
    have ht : (withFinal (Ev.removeMerge m.target m.merged)
        (emitEv (Ev.addMerge m.target m.merged) >>= fun _ => mergeBody env m)).trace
        = [Ev.addMerge m.target m.merged] ++ (mergeBody env m).trace
          ++ [Ev.removeMerge m.target m.merged] := rfl
    rw [ht]
    have hI' : (List.map evIncrs (mergeBody env m).trace).flatten = [] := hI
    have hD' : (List.map evDecrs (mergeBody env m).trace).flatten = [] := hD
    simp [incrsOf_append, decrsOf_append, hI', hD', incrsOf, decrsOf, evIncrs, evDecrs]
  · have hsub : notifySub env (Delta.mergeStart m.target m.merged)
        = ⟨Res.err ErrKind.notifyFail, [Ev.notify (Delta.mergeStart m.target m.merged)]⟩ := by
      simp [notifySub, hn]
    rw [hsub, bind_mk_err]
    rfl

theorem SplitLabels_dirty_balance (env : Env) (fromLabel : Label) :
    incrsOf (SplitLabels env fromLabel).trace = decrsOf (SplitLabels env fromLabel).trace := by
  simp only [SplitLabels]
  by_cases hs : env.storeOk = true
  case neg => rw [if_neg hs]; rfl
  rw [if_pos hs]
  by_cases hb : env.batcherOk = true
  case neg => rw [if_neg hb]; rfl
  rw [if_pos hb]
  have hbody := splitBody_dirtyFree env fromLabel
  have hI := incrsOf_eq_nil hbody
  have hD := decrsOf_eq_nil hbody
  have ht : (withFinal (Ev.dirtyDecr fromLabel)
      (emitEv (Ev.dirtyIncr fromLabel) >>= fun _ => splitBody env fromLabel)).trace
      = [Ev.dirtyIncr fromLabel] ++ (splitBody env fromLabel).trace
        ++ [Ev.dirtyDecr fromLabel] := rfl
  rw [ht]
  have hI' : (List.map evIncrs (splitBody env fromLabel).trace).flatten = [] := hI
  have hD' : (List.map evDecrs (splitBody env fromLabel).trace).flatten = [] := hD
  simp [incrsOf_append, decrsOf_append, hI', hD', incrsOf, decrsOf, evIncrs, evDecrs]

theorem MergeLabels_shape (env : Env) (m : MergeOp) :
    StartShape (Delta.mergeStart m.target m.merged) isMergeMid
      (Delta.mergeEnd m.target m.merged) (MergeLabels env m) := by
  simp only [MergeLabels]
  by_cases hs : env.storeOk = true
  case neg => rw [if_neg hs]; exact Or.inl rfl
  rw [if_pos hs]
  by_cases hb : env.batcherOk = true
  case neg => rw [if_neg hb]; exact Or.inl rfl
  rw [if_pos hb]
  apply startShape_of
  exact shape_wrap (Ev.removeMerge m.target m.merged) (Ev.addMerge m.target m.merged) rfl rfl
    (mergeBody_shape env m)

theorem SplitLabels_shape (env : Env) (fromLabel : Label) :
    StartShape (Delta.splitStart fromLabel env.freshLabel) isSplitMid
      (Delta.splitEnd fromLabel env.freshLabel) (SplitLabels env fromLabel) := by
  simp only [SplitLabels]
  by_cases hs : env.storeOk = true
  case neg => rw [if_neg hs]; exact Or.inl rfl
  rw [if_pos hs]
  by_cases hb : env.batcherOk = true
  case neg => rw [if_neg hb]; exact Or.inl rfl
  rw [if_pos hb]
  exact startShape_wrap (Ev.dirtyDecr fromLabel) (Ev.dirtyIncr fromLabel) rfl rfl
    (splitBody_shape env fromLabel)

theorem izyxLt_irrefl (a : IZYX) : izyxLt a a = false := by simp [izyxLt]

/-! ## Claims -/
/-- Claim C1: the claim states that for a split that is a true subset of
the original's voxels, `diffBlock` returns remaining runs totalling
`numVoxels(orig) - numVoxels(split)`, sorted and non-overlapping, and a
full duplicate for an exact cover.  The code instead panics: excising the
first split run removes the front element of the original list, the
cursor is reset to the removed element's nil predecessor, and the
`e.Next()` call dereferences nil.  Here the 3-voxel split run `[2,5)` is
strictly contained in the 10-voxel original run `[0,10)` (the claim
expects fragments `[0,2)` and `[5,10)`, 7 voxels), yet the call crashes;
independently, the epilogue never increments its output index. -/
theorem diffBlock_crashes_on_contained_split :
    numVoxels [⟨0, 0, 2, 3⟩] = 3 ∧ numVoxels [⟨0, 0, 0, 10⟩] = 10 ∧
    diffBlock [⟨0, 0, 2, 3⟩] [⟨0, 0, 0, 10⟩] = DiffOut.nilCrash := by decide

/-- Claim C4: the claim states `diffBlock` errors exactly when some split
run intersects no remaining original run.  The code's loops are the
transpose of that walk: it errors when the current ORIGINAL element is
intersected by no remaining split run.  Here the single split run
`[10,12)` does intersect the second original run `[10,15)` (first
conjunct), so by the claim no error should occur (the spec's walk skips
to the next original and succeeds), yet the code fails with the
"split is not contained within single label" error because the first
original `[0,5)` matches no split run. -/
theorem diffBlock_error_mischaracterized :
    (RLE.Excise ⟨0, 0, 10, 5⟩ ⟨0, 0, 10, 2⟩).isSome = true ∧
    diffBlock [⟨0, 0, 10, 2⟩] [⟨0, 0, 0, 5⟩, ⟨0, 0, 10, 5⟩] = DiffOut.fail := by decide

/-- Claim C9: the claim states `SplitLabels` never reads `splitblks` out
of range, in particular for a well-formed payload decoding to zero runs.
`envBase.payload` is exactly such a payload (first conjunct: it decodes
to the empty run list), `splitblks` is therefore empty, and the
`splitblks[0]` read of the Z-range computation is out of range — the
embedded call ends in an index-out-of-range panic.  (The scan callback
likewise reads `splitblks[pos]` before its `pos >= len(splitblks)`
guard.) -/
theorem split_empty_splitblks_oob :
    decodePayload envBase.payload = Except.ok [] ∧
    (SplitLabels envBase 7).res = Res.crash CrashKind.indexOOB :=
  ⟨rfl, by decide⟩

/-- Claim C10: `diffBlock` leaves both input run lists unchanged — it
copies `split` and `orig` into fresh slices, sorts only the copies, and
builds its result from them, so the caller-visible slices after the call
equal the inputs. -/
theorem diffBlock_preserves_inputs (split orig : List RLE) :
    (diffBlockRun split orig).2 = (split, orig) := rfl

/-- Claim C3 counterexample: a merge in which every external call
succeeds except the final batch commit.  The commit error is logged
(`logError` is in the trace) but `MergeLabels` still returns success,
refuting "the commit error is … also returned to the caller". -/
theorem mergeCommit_error_not_returned_cex :
    envC3.mergeCommitOk = false ∧
    (MergeLabels envC3 mOp).res = Res.ok () ∧
    Ev.logError ∈ (MergeLabels envC3 mOp).trace := by decide

/-- Claim C3 (amended): a final-batch-commit failure in `MergeLabels` or
`SplitLabels` is logged but NOT returned: the commit step itself always
completes normally (first two conjuncts — the error never escapes the
step), and any call that fails its final commit yet returns success has
logged the error. -/
theorem commit_error_logged_not_returned (env : Env) (m : MergeOp) (fromLabel l : Label) :
    (mergeCommit env).res = Res.ok () ∧
    (splitCommit env).res = Res.ok () ∧
    (env.mergeCommitOk = false → (MergeLabels env m).res = Res.ok () →
      Ev.logError ∈ (MergeLabels env m).trace) ∧
    (env.splitCommitOk = false → (SplitLabels env fromLabel).res = Res.ok l →
      Ev.logError ∈ (SplitLabels env fromLabel).trace) := by
  refine ⟨mergeCommit_res env, splitCommit_res env, ?_, ?_⟩
  · intro hcf hok
    obtain ⟨hs, hb, hn, hbody⟩ := MergeLabels_ok_parts env m hok
    exact mem_MergeLabels_of_body env m hs hb hn ((mergeBody_ok_facts env m hbody).2 hcf)
  · intro hcf hok
    obtain ⟨hs, hb, hbody⟩ := SplitLabels_ok_parts env fromLabel l hok
    exact mem_SplitLabels_of_body env fromLabel hs hb
      (splitBody_ok_commitLog env fromLabel l hbody hcf)

/-- Claim C3 witness: the amended theorem applied to the concrete failing
commit of the counterexample environment. -/
theorem commit_error_logged_not_returned_witness :
    Ev.logError ∈ (MergeLabels envC3 mOp).trace :=
  (commit_error_logged_not_returned envC3 mOp 0 0).2.2.1 (by decide) (by decide)

/-- Claim C5: every label marked dirty by `MergeLabels` (via `AddMerge`)
or `SplitLabels` (via `Incr`) is unmarked (via the deferred
`RemoveMerge`/`Decr`) before the call returns, on every exit path: the
multiset of increments recorded in the trace equals the multiset of
decrements (here even as equal lists). -/
theorem dirty_marks_balanced (env : Env) (m : MergeOp) (fromLabel : Label) :
    incrsOf (MergeLabels env m).trace = decrsOf (MergeLabels env m).trace ∧
    incrsOf (SplitLabels env fromLabel).trace = decrsOf (SplitLabels env fromLabel).trace :=
  ⟨MergeLabels_dirty_balance env m, SplitLabels_dirty_balance env fromLabel⟩

/-- Claim C6: on every execution (including ones returning an error or
panicking part-way) the bus messages of a `MergeLabels` call are a prefix
of `MergeStart`, then `ChangeSize`/`MergeBlock` deltas, then `MergeEnd`,
and those of a `SplitLabels` call a prefix of `SplitStart`, then
`SplitBlockLabel`/`ChangeSize` deltas, then `SplitEnd`: no `End` before
its `Start` and no delta before the `Start`. -/
theorem events_start_mid_end_order (env : Env) (m : MergeOp) (fromLabel : Label) :
    StartShape (Delta.mergeStart m.target m.merged) isMergeMid
      (Delta.mergeEnd m.target m.merged) (MergeLabels env m) ∧
    StartShape (Delta.splitStart fromLabel env.freshLabel) isSplitMid
      (Delta.splitEnd fromLabel env.freshLabel) (SplitLabels env fromLabel) :=
  ⟨MergeLabels_shape env m, SplitLabels_shape env fromLabel⟩

/-- Claim C7: every successful `MergeLabels` call emits a
`DeltaReplaceSize` whose `OldSize` is the target's stored voxel count as
read before any union, and whose `NewSize` is that old size plus the sum
of the merged-from labels' stored voxel counts. -/
theorem merge_replace_size_totals (env : Env) (m : MergeOp)
    (h : (MergeLabels env m).res = Res.ok ()) :
    Ev.notify (Delta.replaceSize m.target (numVoxelsMap (env.store m.target))
        (numVoxelsMap (env.store m.target) + sumStoreSizes env m.merged))
      ∈ (MergeLabels env m).trace := by
  obtain ⟨hs, hb, hn, hbody⟩ := MergeLabels_ok_parts env m h
  obtain ⟨⟨st, hst, hmem⟩, _⟩ := mergeBody_ok_facts env m hbody
  have hsum : st.2.2 = sumStoreSizes env m.merged := by
    have := mergeLoop_added env m.merged [] (env.store m.target) 0 st hst
    simpa using this
  rw [← hsum]
  exact mem_MergeLabels_of_body env m hs hb hn hmem

/-- Claim C7 witness: the spec's end-to-end merge example — target 1 with
5 voxels absorbs label 2 with 6 voxels; the emitted size replacement is
`5 → 11`. -/
theorem merge_replace_size_totals_witness :
    Ev.notify (Delta.replaceSize 1 5 11) ∈ (MergeLabels envC7 mOp).trace :=
  merge_replace_size_totals envC7 mOp (by decide)

/-- Claim C2: in the range-scan callback of `SplitLabels`, (i) the cursor
`pos` advances only when the scanned original block's coordinate matched
the current split cursor's coordinate or lies beyond it in key order, and
(ii) whenever the two coordinates are equal the Block Differencer is
invoked on (that split block's runs, the original block's runs): a full
duplicate queues a delete of the original block's key, and a successful
non-duplicate result queues a put of the reduced runs. -/
theorem splitScan_cursor_spec (env : Env) (splitmap : BlockMap) (splitblks : List IZYX)
    (fromLabel : Label) (pos : Nat) (c : Chunk) (h : pos < splitblks.length) :
    (∀ pos' t, scanStep env splitmap splitblks fromLabel pos c = ⟨Res.ok pos', t⟩ →
        pos' ≠ pos →
        (c.blk = splitblks.get ⟨pos, h⟩ ∨ izyxLt (splitblks.get ⟨pos, h⟩) c.blk = true)) ∧
    (c.blk = splitblks.get ⟨pos, h⟩ → c.keyOk = true → c.rlesOk = true →
      (∀ mods, diffBlock (mapLookupD splitmap (splitblks.get ⟨pos, h⟩)) c.rles
          = DiffOut.ok mods true →
        scanStep env splitmap splitblks fromLabel pos c
          = ⟨Res.ok pos, [Ev.batchDelete fromLabel c.blk]⟩) ∧
      (∀ mods, diffBlock (mapLookupD splitmap (splitblks.get ⟨pos, h⟩)) c.rles
          = DiffOut.ok mods false → env.marshalOk = true →
        scanStep env splitmap splitblks fromLabel pos c
          = ⟨Res.ok pos, [Ev.batchPut fromLabel c.blk mods]⟩)) := by
  constructor
  · intro pos' t heq hne
    by_cases hk : c.keyOk = true
    · by_cases heqb : c.blk = splitblks.get ⟨pos, h⟩
      · exact Or.inl heqb
      · right
        by_cases hlt : izyxLt c.blk (splitblks.get ⟨pos, h⟩) = true
        · exfalso
          have hcond : (izyxLt c.blk (splitblks.get ⟨pos, h⟩)
              || decide (splitblks.length ≤ pos)) = true := by rw [hlt]; rfl
          simp only [scanStep, if_pos hk, dif_pos h, if_pos hcond] at heq
          have : pos = pos' := by
            have := congrArg W.res heq
            simpa [pure] using this
          exact hne this.symm
        · exact izyxLt_total _ _ (by simpa using hlt) heqb
    · exfalso
      simp only [scanStep, if_neg hk] at heq
      have := congrArg W.res heq
      simp [failW] at this
  · intro heqb hk hrles
    have hcond : ¬((izyxLt c.blk (splitblks.get ⟨pos, h⟩)
        || decide (splitblks.length ≤ pos)) = true) := by
      rw [heqb, izyxLt_irrefl]
      simp [Nat.not_le.mpr h]
    constructor
    · intro mods hdiff
      simp only [scanStep, if_pos hk, dif_pos h, if_neg hcond, if_pos heqb, if_pos hrles,
        hdiff]
      rfl
    · intro mods hdiff hmarshal
      simp only [scanStep, if_pos hk, dif_pos h, if_neg hcond, if_pos heqb, if_pos hrles,
        hdiff]
      simp only [if_neg (by simp : ¬(false = true)), if_pos hmarshal]
      rfl

/-- Claim C2 witness: a cursor at position 0 of a one-block split list
meeting a chunk with the same coordinate and an empty stored run list:
the differencer reports a full duplicate and the callback queues exactly
the delete of that block's key, leaving the cursor in place. -/
theorem splitScan_cursor_spec_witness :
    0 < [blkW].length ∧
    scanStep envBase splitmapW [blkW] 7 0 chunkW
      = ⟨Res.ok 0, [Ev.batchDelete 7 chunkW.blk]⟩ :=
  ⟨by decide,
    ((splitScan_cursor_spec envBase splitmapW [blkW] 7 0 chunkW (by decide)).2
      (by decide) rfl rfl).1 [] (by decide)⟩

/-- Claim C8: for any payload whose 12-byte header is present but whose
first byte differs from the binary-sparse-volume encoding tag,
`SplitLabels` returns an error, and its trace contains no store
mutation: no queued block put or delete, no range delete, and no batch
commit, for `fromLabel` or any other label. -/
theorem split_bad_encoding_no_mutation (env : Env) (fromLabel : Label)
    (hlen : 12 ≤ env.payload.length) (htag : env.payload.headD 0 ≠ encodingBinary) :
    (∃ e, (SplitLabels env fromLabel).res = Res.err e) ∧
    ((SplitLabels env fromLabel).trace.all noBlockWriteEv) = true := by
  have hdp : decodePayload env.payload = Except.error ErrKind.badEncoding := by
    simp only [decodePayload]
    rw [if_neg (by omega), if_pos htag]
  have hbody : (∃ e, (splitBody env fromLabel).res = Res.err e) ∧
      ((splitBody env fromLabel).trace.all noBlockWriteEv) = true := by
    simp only [splitBody]
    by_cases hnl : env.newLabelOk = true
    · rw [if_pos hnl]
      by_cases hn : env.notifyOk (Delta.splitStart fromLabel env.freshLabel) = true
      · have hsub : notifySub env (Delta.splitStart fromLabel env.freshLabel)
            = ⟨Res.ok (), [Ev.notify (Delta.splitStart fromLabel env.freshLabel)]⟩ := by
          simp [notifySub, hn, emitEv]
        rw [hsub, bind_mk_ok, hdp]
        exact ⟨⟨ErrKind.badEncoding, rfl⟩, rfl⟩
      · have hsub : notifySub env (Delta.splitStart fromLabel env.freshLabel)
            = ⟨Res.err ErrKind.notifyFail,
                [Ev.notify (Delta.splitStart fromLabel env.freshLabel)]⟩ := by
          simp [notifySub, hn]
        rw [hsub, bind_mk_err]
        exact ⟨⟨ErrKind.notifyFail, rfl⟩, rfl⟩
    · rw [if_neg hnl]
      exact ⟨⟨ErrKind.newLabelFail, rfl⟩, rfl⟩
  simp only [SplitLabels]
  by_cases hs : env.storeOk = true
  case neg => rw [if_neg hs]; exact ⟨⟨ErrKind.storeInit, rfl⟩, rfl⟩
  rw [if_pos hs]
  by_cases hb : env.batcherOk = true
  case neg => rw [if_neg hb]; exact ⟨⟨ErrKind.noBatcher, rfl⟩, rfl⟩
  rw [if_pos hb]
  obtain ⟨⟨e, he⟩, ht⟩ := hbody
  constructor
  · exact ⟨e, he⟩
  · have htr : (withFinal (Ev.dirtyDecr fromLabel)
        (emitEv (Ev.dirtyIncr fromLabel) >>= fun _ => splitBody env fromLabel)).trace
        = [Ev.dirtyIncr fromLabel] ++ (splitBody env fromLabel).trace
          ++ [Ev.dirtyDecr fromLabel] := rfl
    rw [htr]
    simp [List.all_append, ht, noBlockWriteEv]

/-- Claim C8 witness: a 16-byte payload whose first byte is 1 (not the
binary encoding tag): the call errors and the trace holds no block
mutation. -/
theorem split_bad_encoding_no_mutation_witness :
    12 ≤ envC8.payload.length ∧ envC8.payload.headD 0 ≠ encodingBinary ∧
    (∃ e, (SplitLabels envC8 5).res = Res.err e) ∧
    ((SplitLabels envC8 5).trace.all noBlockWriteEv) = true := by
  have h := split_bad_encoding_no_mutation envC8 5 (by decide) (by decide)
  exact ⟨by decide, by decide, h.1, h.2⟩
